import Mathlib

/-!
Shallow embedding of the AI Personalized Career and Skills Advisor
pipeline of `app.py`: the fixed role catalog, the skill vocabulary, skill
extraction, role scoring, learning-plan generation, JSON serialization of
the plan, PDF text extraction, and the radar-chart user series.

Python floats are modelled as rationals; the Python call `round(x, 2)` is
modelled as round-half-to-even at two decimal places, which is the Python
rounding mode.  Keys of a Python `dict` or `collections.Counter`
(insertion-ordered, first occurrence wins) are modelled as association
lists with first-occurrence deduplication.  All definitions are
structurally recursive so that concrete runs evaluate by kernel
reduction.
-/

namespace CareerAdvisor

/-- The predefined role catalog `role_skills` of `app.py`, as an ordered
association list (Python dicts preserve insertion order). -/
def role_skills : List (String × List String) :=
  [ ("Data Scientist", ["Python", "SQL", "Machine Learning", "Statistics", "Data Visualization"]),
    ("Full Stack Developer", ["JavaScript", "React", "Node.js", "Databases", "APIs"]),
    ("Cybersecurity Analyst", ["Networking", "Linux", "Threat Analysis", "SIEM", "Python"]),
    ("Cloud Engineer", ["AWS", "Docker", "Kubernetes", "Terraform", "Linux"]),
    ("Product Manager", ["Agile", "Communication", "Market Research", "Roadmapping", "SQL"]) ]

/-- Deduplication keeping first occurrences, with the elements already
seen carried as an accumulator. -/
def firstDedupAux (seen : List String) : List String → List String
  | [] => []
  | a :: l => if a ∈ seen then firstDedupAux seen l else a :: firstDedupAux (a :: seen) l

/-- First-occurrence deduplication, matching the key order of a Python
dict built by insertion: keeps the first copy of each element. -/
def firstDedup (l : List String) : List String := firstDedupAux [] l

/-- The line `common_skills = list(set(sum(role_skills.values(), [])))`:
the skill vocabulary, the deduplicated union of all required-skill lists
(the Python set order is unspecified; only membership matters below). -/
def common_skills : List String :=
  firstDedup ((role_skills.map Prod.snd).flatten)

/-- Round half to even of the integer fraction `n / d` (for `d > 0`),
the Python rounding mode applied to a ratio of integers.  Here `n / d`
and `n % d` are Euclidean division and remainder, which for a positive
divisor agree with floor division. -/
def roundHalfEvenDiv (n d : ℤ) : ℤ :=
  if 2 * (n % d) < d then n / d
  else if d < 2 * (n % d) then n / d + 1
  else if (n / d) % 2 = 0 then n / d else n / d + 1

/-- The Python call `round(x, 2)` on the rational model of a float: round
`100 * x` half to even, then divide by `100`.  Implemented on the
numerator/denominator representation so that it evaluates by kernel
reduction (the field operations of `ℚ` are irreducible). -/
def pyRound2 (q : ℚ) : ℚ := mkRat (roundHalfEvenDiv (100 * q.num) (q.den : ℤ)) 100

/-- The Python method `str.lower()` (character-wise case folding).  The
core `String.toLower` is iterator-based and does not kernel-reduce, so
the embedding maps `Char.toLower` over the character data directly. -/
def pyLower (s : String) : String := ⟨s.data.map Char.toLower⟩

/-- The lowercased vocabulary `[s.lower() for s in common_skills]` that
`extract_skills` probes with its case-insensitive membership test. -/
def lowerVocab : List String := common_skills.map pyLower

/-- The list `skills_found`, built by the comprehension
`[token.text for token in doc if token.text.lower() in lowered vocabulary]`.
The spaCy tokenizer is an external collaborator; the embedding takes the
token list as input (the spec abstracts it as a pluggable
`tokenize(text) -> sequence<string>`). -/
def skillsFound (tokens : List String) : List String :=
  tokens.filter (fun t => lowerVocab.contains (pyLower t))

/-- Maximum of a list of naturals (Python `max`), `0` on `[]` (the empty
case is never reached: `extract_skills` guards it explicitly). -/
def maxNat (l : List ℕ) : ℕ := l.foldr max 0

/-- The guarded divisor `max_count = max(counts.values()) if counts else 1`
of `extract_skills`: the Counter keys are the distinct matches in
first-occurrence order, and the value of each key is its count. -/
def maxCountOf (found : List String) : ℕ :=
  if (firstDedup found).isEmpty then 1
  else maxNat ((firstDedup found).map (fun s => found.count s))

/-- The function `extract_skills`: count matched tokens with a Counter,
divide each count by the guarded maximal count and round to two
decimals, i.e. `{skill: round(count / max_count, 2) for ...}`.  Here
`mkRat count max_count` is the rational value of the Python division
`count / max_count`. -/
def extract_skills (tokens : List String) : List (String × ℚ) :=
  let found := skillsFound tokens
  (firstDedup found).map (fun s => (s, pyRound2 (mkRat (found.count s) (maxCountOf found))))

/-- The Python method `str.strip()`: drop whitespace from both ends. -/
def pyStrip (s : String) : String :=
  ⟨((s.data.dropWhile Char.isWhitespace).reverse.dropWhile Char.isWhitespace).reverse⟩

/-- Split a character list at every comma; on the empty list it yields
one empty group, exactly like the Python `split` method. -/
def splitComma : List Char → List (List Char)
  | [] => [[]]
  | c :: rest =>
    match splitComma rest with
    | [] => if c = ',' then [[], []] else [[c]]
    | g :: gs => if c = ',' then [] :: g :: gs else (c :: g) :: gs

/-- The Python expression `manual_skills.split(",")`. -/
def pySplitComma (s : String) : List String := (splitComma s.data).map (fun l => ⟨l⟩)

/-- The manual-entry branch
`user_skills_conf = {s.strip(): 1.0 for s in manual_skills.split(",") if s.strip()}`:
strip each comma-separated fragment, keep the nonempty ones as keys
(first occurrence wins, Python dict insertion order), each with
confidence `1.0`. -/
def user_skills_conf (manual_skills : String) : List (String × ℚ) :=
  (firstDedup (((pySplitComma manual_skills).map pyStrip).filter (fun s => s ≠ ""))).map
    (fun s => (s, 1))

/-- The line `user_skills = list(user_skills_conf.keys())`. -/
def userSkillsOf (conf : List (String × ℚ)) : List String := conf.map Prod.fst

/-- One row of `all_roles_scores`: role name, match percentage, matched
and missing required skills. -/
structure RoleScore where
  role : String
  score : ℚ
  matched : List String
  missing : List String
deriving DecidableEq, Repr

/-- One iteration of the scoring loop:
`matched = [s for s in req_skills if s in user_skills]`,
`score = round(len(matched)/len(req_skills)*100, 2) if req_skills else 0`,
`missing = [s for s in req_skills if s not in matched]`.  Here
`mkRat (matched.length * 100) req_skills.length` is the rational value of
the Python expression `len(matched)/len(req_skills)*100`. -/
def scoreEntry (user_skills : List String) (role : String) (req_skills : List String) :
    RoleScore :=
  let matched := req_skills.filter (fun s => user_skills.contains s)
  { role := role
    score := if req_skills.isEmpty then 0
             else pyRound2 (mkRat (matched.length * 100) req_skills.length)
    matched := matched
    missing := req_skills.filter (fun s => !(matched.contains s)) }

/-- Sort key of the line
`sorted(all_roles_scores, key=lambda x: x["Match %"], reverse=True)`:
descending by match percentage. -/
def byMatchDesc (a b : RoleScore) : Prop := b.score ≤ a.score

instance : DecidableRel byMatchDesc :=
  fun a b => inferInstanceAs (Decidable (b.score ≤ a.score))

instance : IsTotal RoleScore byMatchDesc :=
  ⟨fun a b => le_total b.score a.score⟩

instance : IsTrans RoleScore byMatchDesc :=
  ⟨fun _ _ _ hab hbc => le_trans hbc hab⟩

/-- The scoring loop over a catalog followed by the descending sort.  The
Python sort is stable and with `reverse=True` keeps the original order
among equal keys, which is exactly insertion sort with `byMatchDesc`: an
element is inserted before the first element whose key is not larger. -/
def score_roles (user_skills : List String) (catalog : List (String × List String)) :
    List RoleScore :=
  (catalog.map (fun p => scoreEntry user_skills p.1 p.2)).insertionSort byMatchDesc

/-- The value `all_roles_scores` of `app.py`: the scoring loop over the
fixed `role_skills` catalog, sorted. -/
def all_roles_scores (user_skills : List String) : List RoleScore :=
  score_roles user_skills role_skills

/-- One element appended to the `plan` list. -/
structure LearningPlanItem where
  week : ℤ
  skill : String
  resources : List String
deriving DecidableEq, Repr

/-- The plan loop: for each entry of `all_roles_scores[:5]`, for each of
its missing skills, append
`{"Week": 1, "Skill": skill, "Resources": ["Coursera/YouTube Course on " + skill]}`. -/
def plan (scores : List RoleScore) : List LearningPlanItem :=
  (scores.take 5).flatMap (fun entry =>
    entry.missing.map (fun skill =>
      { week := 1, skill := skill, resources := ["Coursera/YouTube Course on " ++ skill] }))

/-- A small JSON value model for the records-oriented `to_json` download
of the plan DataFrame. -/
inductive Json where
  | num (n : ℤ)
  | str (s : String)
  | arr (elems : List Json)
  | obj (fields : List (String × Json))

/-- The JSON object serialized for one plan row: keys `Week`, `Skill`,
`Resources` in the column order of the DataFrame. -/
def itemToJson (it : LearningPlanItem) : Json :=
  .obj [("Week", .num it.week), ("Skill", .str it.skill),
        ("Resources", .arr (it.resources.map .str))]

/-- The records-oriented serialization of the plan: a JSON array of
record objects. -/
def planToJson (p : List LearningPlanItem) : Json := .arr (p.map itemToJson)

/-- Parse one record back, accepting exactly the fields `Week`, `Skill`,
`Resources` with `Resources` a one-element list of strings. -/
def jsonToItem : Json → Option LearningPlanItem
  | .obj [("Week", .num w), ("Skill", .str s), ("Resources", .arr [.str r])] =>
      some { week := w, skill := s, resources := [r] }
  | _ => none

/-- Parse a serialized learning plan back from JSON. -/
def jsonToPlan : Json → Option (List LearningPlanItem)
  | .arr elems => elems.mapM jsonToItem
  | _ => none

/-- Outcome of `page.extract_text()` for one page of the external PDF
library: either the text of the page or a raised exception message. -/
inductive PageResult where
  | ok (text : String)
  | err (msg : String)

/-- The accumulation loop of `parse_pdf`: `text += page.extract_text() + "\n"`
page by page; the first page that raises aborts the loop, the `except`
branch shows `PDF parsing error: ...` via `st.error`, and the text
accumulated so far is returned. -/
def parsePages (acc : String) : List PageResult → String × Option String
  | [] => (acc, none)
  | .ok t :: rest => parsePages (acc ++ t ++ "\n") rest
  | .err e :: _ => (acc, some ("PDF parsing error: " ++ e))

/-- The function `parse_pdf(file)`: the external reader either fails to
open the file (the reader constructor raises) or yields the list of page
outcomes.  The function always returns the accumulated text, paired with
the warning message shown when an exception was caught (`none` when no
warning was shown); it never raises to its caller. -/
def parse_pdf (pdf : Except String (List PageResult)) : String × Option String :=
  match pdf with
  | .error e => ("", some ("PDF parsing error: " ++ e))
  | .ok pages => parsePages "" pages

/-- The radar-chart lookup `role_skills.get(role, [])`. -/
def roleReq (role : String) : List String :=
  ((role_skills.find? (fun p => p.1 == role)).map Prod.snd).getD []

/-- The radar axes `all_skills = list(set(user_skills + req_skills))`
(the Python set order is unspecified; first-occurrence order is chosen,
and only membership and values matter for the claims). -/
def radarAllSkills (user_skills req_skills : List String) : List String :=
  firstDedup (user_skills ++ req_skills)

/-- The dictionary lookup `user_skills_conf.get(skill, 0)`. -/
def confGet (conf : List (String × ℚ)) (skill : String) : ℚ :=
  ((conf.find? (fun p => p.1 == skill)).map Prod.snd).getD 0

/-- The user series of a radar chart,
`user_vals = [user_skills_conf.get(skill, 0) for skill in all_skills]`. -/
def user_vals (conf : List (String × ℚ)) (all_skills : List String) : List ℚ :=
  all_skills.map (fun skill => confGet conf skill)

/-! ### General lemmas about the embedded operations -/

theorem mem_firstDedupAux {x : String} :
    ∀ {l seen : List String}, x ∈ firstDedupAux seen l ↔ (x ∈ l ∧ x ∉ seen)
  | [], seen => by simp [firstDedupAux]
  | a :: l, seen => by
    rw [firstDedupAux]
    split_ifs with ha
    · rw [mem_firstDedupAux]
      constructor
      · rintro ⟨hl, hs⟩
        exact ⟨List.mem_cons_of_mem _ hl, hs⟩
      · rintro ⟨hl, hs⟩
        rcases List.mem_cons.mp hl with rfl | hl
        · exact absurd ha hs
        · exact ⟨hl, hs⟩
    · rw [List.mem_cons, mem_firstDedupAux, List.mem_cons]
      by_cases hx : x = a
      · subst hx; simp [ha]
      · simp [hx]

theorem mem_firstDedup {x : String} {l : List String} : x ∈ firstDedup l ↔ x ∈ l := by
  simp [firstDedup, mem_firstDedupAux]

theorem roundHalfEvenDiv_nonneg {n d : ℤ} (hn : 0 ≤ n) (hd : 0 < d) :
    0 ≤ roundHalfEvenDiv n d := by
  have h0 : 0 ≤ n / d := Int.ediv_nonneg hn hd.le
  unfold roundHalfEvenDiv
  split_ifs <;> omega

theorem roundHalfEvenDiv_le {n d c : ℤ} (hd : 0 < d) (h : n ≤ c * d) :
    roundHalfEvenDiv n d ≤ c := by
  have hr0 : 0 ≤ n % d := Int.emod_nonneg n (ne_of_gt hd)
  have hrd : n % d < d := Int.emod_lt_of_pos n hd
  have heq : d * (n / d) + n % d = n := Int.ediv_add_emod n d
  have hfc : d * (n / d) ≤ d * c := by linarith [mul_comm c d]
  have hfle : n / d ≤ c := (mul_le_mul_left hd).mp hfc
  unfold roundHalfEvenDiv
  split_ifs with h1 h2 h3
  · exact hfle
  · -- remainder strictly above half the divisor, hence strictly positive
    have hrpos : 0 < n % d := by omega
    have hlt : d * (n / d) < d * c := by linarith [mul_comm c d]
    have : n / d < c := (mul_lt_mul_left hd).mp hlt
    omega
  · exact hfle
  · -- exact tie with an odd quotient: the remainder is half the divisor
    have hrpos : 0 < n % d := by omega
    have hlt : d * (n / d) < d * c := by linarith [mul_comm c d]
    have : n / d < c := (mul_lt_mul_left hd).mp hlt
    omega

theorem pyRound2_nonneg {q : ℚ} (h : 0 ≤ q) : 0 ≤ pyRound2 q := by
  unfold pyRound2
  have hn : 0 ≤ q.num := Rat.num_nonneg.mpr h
  have hd : (0 : ℤ) < (q.den : ℤ) := by exact_mod_cast q.den_pos
  have h0 : (0 : ℤ) ≤ roundHalfEvenDiv (100 * q.num) (q.den : ℤ) :=
    roundHalfEvenDiv_nonneg (by positivity) hd
  rw [Rat.mkRat_eq_div]
  positivity

theorem pyRound2_le_one {q : ℚ} (h : q ≤ 1) : pyRound2 q ≤ 1 := by
  unfold pyRound2
  have hdpos : (0 : ℚ) < (q.den : ℚ) := by exact_mod_cast q.den_pos
  have hnum : q.num ≤ (q.den : ℤ) := by
    rw [← Rat.num_div_den q, div_le_one hdpos] at h
    exact_mod_cast h
  have hle : roundHalfEvenDiv (100 * q.num) (q.den : ℤ) ≤ 100 := by
    refine roundHalfEvenDiv_le (by exact_mod_cast q.den_pos) ?_
    linarith [mul_comm (100 : ℤ) (q.den : ℤ)]
  rw [Rat.mkRat_eq_div]
  rw [div_le_one (by norm_num : (0:ℚ) < ((100:ℕ) : ℚ))]
  exact_mod_cast hle

theorem pyRound2_one : pyRound2 1 = 1 := by decide

theorem maxNat_mem {l : List ℕ} (h : l ≠ []) : maxNat l ∈ l := by
  induction l with
  | nil => exact absurd rfl h
  | cons a t ih =>
    unfold maxNat at ih ⊢
    rcases eq_or_ne t [] with rfl | ht
    · simp [List.foldr]
    · rcases le_total (t.foldr max 0) a with hle | hle
      · simp [List.foldr, max_eq_left hle]
      · simp only [List.foldr, max_eq_right hle]
        exact List.mem_cons_of_mem _ (ih ht)

theorem le_maxNat {l : List ℕ} {x : ℕ} (h : x ∈ l) : x ≤ maxNat l := by
  induction l with
  | nil => cases h
  | cons a t ih =>
    unfold maxNat at ih ⊢
    rcases List.mem_cons.mp h with rfl | hx
    · exact le_max_left _ _
    · exact le_trans (ih hx) (le_max_right _ _)

theorem count_pos_of_mem_firstDedup {s : String} {found : List String}
    (h : s ∈ firstDedup found) : 0 < found.count s :=
  List.count_pos_iff.mpr (mem_firstDedup.mp h)

theorem one_le_maxCountOf (found : List String) : 1 ≤ maxCountOf found := by
  unfold maxCountOf
  split_ifs with h
  · exact le_refl 1
  · have hne : firstDedup found ≠ [] := by
      intro h0
      exact h (List.isEmpty_iff.mpr h0)
    obtain ⟨s, hs⟩ := List.exists_mem_of_ne_nil _ hne
    have hc : found.count s ∈ (firstDedup found).map (fun t => found.count t) :=
      List.mem_map.mpr ⟨s, hs, rfl⟩
    exact le_trans (count_pos_of_mem_firstDedup hs) (le_maxNat hc)

theorem contains_eq_decide_mem (l : List String) (s : String) :
    l.contains s = decide (s ∈ l) := by
  by_cases h : s ∈ l <;> simp [h]

theorem count_le_maxCountOf {s : String} {found : List String}
    (h : s ∈ firstDedup found) : found.count s ≤ maxCountOf found := by
  unfold maxCountOf
  have hne : ¬ (firstDedup found).isEmpty := by
    rw [List.isEmpty_iff]
    intro h0
    rw [h0] at h
    cases h
  rw [if_neg hne]
  exact le_maxNat (List.mem_map.mpr ⟨s, h, rfl⟩)

theorem extract_skills_value_bounds {tokens : List String} {p : String × ℚ}
    (hp : p ∈ extract_skills tokens) : 0 ≤ p.2 ∧ p.2 ≤ 1 := by
  unfold extract_skills at hp
  obtain ⟨s, hs, rfl⟩ := List.mem_map.mp hp
  constructor
  · exact pyRound2_nonneg (by rw [Rat.mkRat_eq_div]; positivity)
  · refine pyRound2_le_one ?_
    rw [Rat.mkRat_eq_div]
    have hd : (0 : ℚ) < (maxCountOf (skillsFound tokens) : ℚ) := by
      exact_mod_cast lt_of_lt_of_le Nat.zero_lt_one (one_le_maxCountOf (skillsFound tokens))
    rw [div_le_one hd]
    exact_mod_cast count_le_maxCountOf hs

theorem extract_skills_key_lower {tokens : List String} {p : String × ℚ}
    (hp : p ∈ extract_skills tokens) : pyLower p.1 ∈ lowerVocab := by
  unfold extract_skills at hp
  obtain ⟨s, hs, rfl⟩ := List.mem_map.mp hp
  have hf : s ∈ skillsFound tokens := mem_firstDedup.mp hs
  unfold skillsFound at hf
  have := (List.mem_filter.mp hf).2
  simpa using this

theorem extract_skills_has_modal {tokens : List String}
    (h : extract_skills tokens ≠ []) : ∃ p ∈ extract_skills tokens, p.2 = 1 := by
  unfold extract_skills at h ⊢
  have hkeys : firstDedup (skillsFound tokens) ≠ [] := by
    intro h0
    apply h
    simp [h0]
  have hmapne : (firstDedup (skillsFound tokens)).map
      (fun s => (skillsFound tokens).count s) ≠ [] := by
    simpa using hkeys
  obtain ⟨s, hs, hcount⟩ := List.mem_map.mp (maxNat_mem hmapne)
  refine ⟨(s, pyRound2 (mkRat ((skillsFound tokens).count s) (maxCountOf (skillsFound tokens)))),
    List.mem_map.mpr ⟨s, hs, rfl⟩, ?_⟩
  have hmax : maxCountOf (skillsFound tokens) = (skillsFound tokens).count s := by
    unfold maxCountOf
    rw [if_neg (by rw [List.isEmpty_iff]; exact hkeys)]
    exact hcount.symm
  have hpos : 0 < (skillsFound tokens).count s := count_pos_of_mem_firstDedup hs
  have hone : mkRat ((skillsFound tokens).count s) (maxCountOf (skillsFound tokens)) = 1 := by
    rw [hmax, Rat.mkRat_eq_div]
    push_cast
    rw [div_self]
    exact_mod_cast hpos.ne'
  simpa [hone] using pyRound2_one

theorem skillsFound_nil_extract {tokens : List String}
    (h : skillsFound tokens = []) : extract_skills tokens = [] := by
  unfold extract_skills
  rw [h]
  rfl

theorem filter_orderedInsert_same (q : ℚ) (x : RoleScore) (hx : x.score = q)
    (l : List RoleScore) :
    (l.orderedInsert byMatchDesc x).filter (fun e => decide (e.score = q))
      = x :: l.filter (fun e => decide (e.score = q)) := by
  induction l with
  | nil => simp [List.orderedInsert, List.filter, hx]
  | cons y ys ih =>
    rw [List.orderedInsert]
    split_ifs with hr
    · simp [List.filter_cons, hx]
    · -- the skipped element has a strictly larger score, so a different one
      have hy : ¬ (y.score = q) := by
        intro hq
        exact hr (le_of_eq (hq.trans hx.symm))
      simp [List.filter_cons, hy, ih]

theorem filter_orderedInsert_diff (q : ℚ) (x : RoleScore) (hx : x.score ≠ q)
    (l : List RoleScore) :
    (l.orderedInsert byMatchDesc x).filter (fun e => decide (e.score = q))
      = l.filter (fun e => decide (e.score = q)) := by
  induction l with
  | nil => simp [List.orderedInsert, List.filter, hx]
  | cons y ys ih =>
    rw [List.orderedInsert]
    split_ifs with hr
    · simp [List.filter_cons, hx]
    · by_cases hy : y.score = q
      · simp [List.filter_cons, hy, ih]
      · simp [List.filter_cons, hy, ih]

theorem filter_insertionSort_score (q : ℚ) (l : List RoleScore) :
    (l.insertionSort byMatchDesc).filter (fun e => decide (e.score = q))
      = l.filter (fun e => decide (e.score = q)) := by
  induction l with
  | nil => rfl
  | cons a l ih =>
    rw [List.insertionSort]
    by_cases ha : a.score = q
    · rw [filter_orderedInsert_same q a ha, ih, List.filter_cons, if_pos (by simpa using ha)]
    · rw [filter_orderedInsert_diff q a ha, ih, List.filter_cons, if_neg (by simpa using ha)]

theorem plan_item_shape {scores : List RoleScore} {it : LearningPlanItem}
    (h : it ∈ plan scores) :
    it.week = 1 ∧ it.resources = ["Coursera/YouTube Course on " ++ it.skill] := by
  unfold plan at h
  obtain ⟨e, _, hit⟩ := List.mem_flatMap.mp h
  obtain ⟨s, _, rfl⟩ := List.mem_map.mp hit
  exact ⟨rfl, rfl⟩

theorem jsonToItem_itemToJson {it : LearningPlanItem} {r : String}
    (h : it.resources = [r]) : jsonToItem (itemToJson it) = some it := by
  obtain ⟨w, s, res⟩ := it
  simp only at h
  subst h
  rfl

theorem mapM_jsonToItem {p : List LearningPlanItem}
    (h : ∀ it ∈ p, ∃ r, it.resources = [r]) :
    (p.map itemToJson).mapM jsonToItem = some p := by
  induction p with
  | nil => rfl
  | cons it p ih =>
    obtain ⟨r, hr⟩ := h it (List.mem_cons_self it p)
    rw [List.map_cons, List.mapM_cons, jsonToItem_itemToJson hr,
      ih (fun x hx => h x (List.mem_cons_of_mem _ hx))]
    rfl

theorem parsePages_ok (texts : List String) :
    ∀ acc, parsePages acc (texts.map PageResult.ok)
      = (texts.foldl (fun a t => a ++ t ++ "\n") acc, none) := by
  induction texts with
  | nil => intro acc; rfl
  | cons t ts ih => intro acc; exact ih (acc ++ t ++ "\n")

theorem parsePages_err (pre : List String) (e : String) (post : List PageResult) :
    ∀ acc, parsePages acc (pre.map PageResult.ok ++ PageResult.err e :: post)
      = (pre.foldl (fun a t => a ++ t ++ "\n") acc, some ("PDF parsing error: " ++ e)) := by
  induction pre with
  | nil => intro acc; rfl
  | cons t ts ih => intro acc; exact ih (acc ++ t ++ "\n")

/-! ### The claims -/

/-- Claim C1: for every role in the catalog, `score_roles` computes the
match percentage as 100 times the number of required skills present in
the user skill set, divided by the number of required skills, rounded to
2 decimal places, and defines the percentage as 0 (without raising) for
a role whose required-skill list is empty. -/
theorem score_roles_match_percentage (user : List String)
    (catalog : List (String × List String)) (role : String) (req : List String)
    (hmem : (role, req) ∈ catalog) :
    ∃ e ∈ score_roles user catalog, e.role = role ∧
      e.score = if req = [] then 0
        else pyRound2 (100 * ((req.filter (fun s => decide (s ∈ user))).length : ℚ)
          / (req.length : ℚ)) := by
  refine ⟨scoreEntry user role req, ?_, rfl, ?_⟩
  · rw [score_roles, List.mem_insertionSort]
    exact List.mem_map.mpr ⟨(role, req), hmem, rfl⟩
  · unfold scoreEntry
    simp only
    by_cases h : req = []
    · simp [h]
    · rw [if_neg (by simpa [List.isEmpty_iff] using h), if_neg h]
      have hfil : req.filter (fun s => user.contains s)
          = req.filter (fun s => decide (s ∈ user)) := by
        refine List.filter_congr ?_
        intro s _
        exact contains_eq_decide_mem user s
      rw [hfil]
      congr 1
      rw [Rat.mkRat_eq_div]
      push_cast
      ring

/-- Witness for C1 at a concrete user and a concrete catalog that
contains a role with an empty required-skill list. -/
theorem score_roles_match_percentage_witness :
    (("R2", ([] : List String)) ∈ [("R1", ["Python", "SQL"]), ("R2", ([] : List String))])
    ∧ ∃ e ∈ score_roles ["Python"] [("R1", ["Python", "SQL"]), ("R2", [])],
        e.role = "R2" ∧ e.score = if ([] : List String) = [] then 0
          else pyRound2 (100 * ((([] : List String).filter
            (fun s => decide (s ∈ (["Python"] : List String)))).length : ℚ)
            / (([] : List String).length : ℚ)) :=
  ⟨by decide, score_roles_match_percentage ["Python"] _ "R2" [] (by decide)⟩

/-- Counterexample to claim C2 as stated: the text consisting of the
single token `python` produces the key `python`, which is not an element
of the vocabulary `common_skills` (the vocabulary spells it `Python`):
the key set keeps the original token casing, so it is not a subset of
the vocabulary. -/
theorem extract_skills_key_not_in_vocab :
    "python" ∈ (extract_skills ["python"]).map Prod.fst
    ∧ "python" ∉ common_skills := by
  decide

/-- Claim C2 as amended: for every input token list, every confidence
value of `extract_skills` lies in `[0, 1]`, and every key lowercases
into the lowercased vocabulary (the key set is a subset of the
vocabulary only up to case). -/
theorem extract_skills_keys_case_insensitive (tokens : List String) :
    ∀ p ∈ extract_skills tokens, (0 ≤ p.2 ∧ p.2 ≤ 1) ∧ pyLower p.1 ∈ lowerVocab :=
  fun _ hp => ⟨extract_skills_value_bounds hp, extract_skills_key_lower hp⟩

/-- Witness for the amended C2 at the token list consisting of the word
`python`. -/
theorem extract_skills_keys_case_insensitive_witness :
    (("python", (1 : ℚ)) ∈ extract_skills ["python"])
    ∧ ((0 ≤ (1 : ℚ) ∧ (1 : ℚ) ≤ 1) ∧ pyLower "python" ∈ lowerVocab) :=
  ⟨by decide, extract_skills_keys_case_insensitive ["python"] ("python", 1) (by decide)⟩

/-- Counterexample to claim C3 as stated: with an empty user skill set
the generated learning plan is not an empty list (every required skill
of every role is missing, so all of them are emitted). -/
theorem empty_input_plan_not_empty :
    plan (all_roles_scores (userSkillsOf [])) ≠ [] := by
  decide

/-- Claim C3 as amended: with no upload and empty manual entry (empty
user skill set), every role scores 0.0 percent, the learning plan lists
one item for every required skill of every top-5 role (the concatenation
of all the required-skill lists of the catalog, 25 items — not an empty
list), and each radar chart's user series is all zeros. -/
theorem empty_input_results :
    (all_roles_scores (userSkillsOf [])).map (fun e => e.score) = [0, 0, 0, 0, 0]
    ∧ (plan (all_roles_scores (userSkillsOf []))).map (fun it => it.skill)
        = (role_skills.map Prod.snd).flatten
    ∧ (all_roles_scores (userSkillsOf [])).map
        (fun e => user_vals [] (radarAllSkills (userSkillsOf []) (roleReq e.role)))
      = [List.replicate 5 0, List.replicate 5 0, List.replicate 5 0,
         List.replicate 5 0, List.replicate 5 0] := by
  decide

/-- Claim C4: every confidence value of `extract_skills` lies in
`[0, 1]`; whenever the mapping is nonempty some value equals exactly 1;
when no skill token is found the result is empty; and the normalizing
divisor is guarded to at least 1 (so no division by zero occurs). -/
theorem extract_skills_conf_contract (tokens : List String) :
    (∀ p ∈ extract_skills tokens, 0 ≤ p.2 ∧ p.2 ≤ 1)
    ∧ (extract_skills tokens ≠ [] → ∃ p ∈ extract_skills tokens, p.2 = 1)
    ∧ (skillsFound tokens = [] → extract_skills tokens = [])
    ∧ 1 ≤ maxCountOf (skillsFound tokens) :=
  ⟨fun _ hp => extract_skills_value_bounds hp, extract_skills_has_modal,
    skillsFound_nil_extract, one_le_maxCountOf _⟩

/-- Witness for C4: on a token list with a repeated skill the modal
skill receives confidence exactly 1. -/
theorem extract_skills_conf_contract_witness :
    ∃ p ∈ extract_skills ["Python", "sql", "Python"], p.2 = 1 :=
  (extract_skills_conf_contract ["Python", "sql", "Python"]).2.1 (by decide)

/-- Claim C5: for every user skill set and catalog, the output of the
matcher is sorted in non-increasing order of match percentage, and among
roles with equal percentages the original catalog insertion order is
preserved (the per-score sublists are exactly those of the unsorted
per-role score list). -/
theorem score_roles_sorted_stable (user : List String)
    (catalog : List (String × List String)) :
    List.Sorted (fun a b => b.score ≤ a.score) (score_roles user catalog)
    ∧ ∀ q : ℚ, (score_roles user catalog).filter (fun e => decide (e.score = q))
        = (catalog.map (fun p => scoreEntry user p.1 p.2)).filter
            (fun e => decide (e.score = q)) :=
  ⟨List.sorted_insertionSort byMatchDesc _, fun q => filter_insertionSort_score q _⟩

/-- Claim C6: for the manual entry of Python, SQL and Statistics (no
upload), the Data Scientist role scores 60.0 with matched skills Python,
SQL, Statistics and missing skills Machine Learning, Data Visualization,
and the Full Stack Developer role scores 0.0. -/
theorem manual_entry_example_scores :
    ((all_roles_scores (userSkillsOf (user_skills_conf "Python, SQL, Statistics"))).find?
        (fun e => e.role == "Data Scientist"))
      = some { role := "Data Scientist", score := 60,
               matched := ["Python", "SQL", "Statistics"],
               missing := ["Machine Learning", "Data Visualization"] }
    ∧ ((all_roles_scores (userSkillsOf (user_skills_conf "Python, SQL, Statistics"))).find?
        (fun e => e.role == "Full Stack Developer")).map (fun e => e.score) = some 0 := by
  decide

/-- Claim C7: the planner consumes exactly the first 5 score entries;
the emitted skills are, in order, the concatenation of the missing-skill
lists of those entries (role-major, within-role order preserved, no
deduplication across roles); and every emitted item has week 1 and a
single placeholder resource string naming the skill. -/
theorem plan_structure (scores : List RoleScore) :
    (plan scores).map (fun it => it.skill)
        = ((scores.take 5).map (fun e => e.missing)).flatten
    ∧ ∀ it ∈ plan scores, it.week = 1
        ∧ it.resources = ["Coursera/YouTube Course on " ++ it.skill] := by
  constructor
  · unfold plan
    generalize scores.take 5 = l
    induction l with
    | nil => rfl
    | cons e l ih =>
      simp only [List.flatMap_cons, List.map_append, List.map_map, List.map_cons,
        List.flatten_cons, ih]
      congr 1
      show e.missing.map (fun s => s) = e.missing
      exact List.map_id' e.missing
  · exact fun _ h => plan_item_shape h

/-- Witness for C7 on a one-role score list with one missing skill. -/
theorem plan_structure_witness :
    ((⟨1, "SQL", ["Coursera/YouTube Course on SQL"]⟩ : LearningPlanItem).week = 1)
    ∧ (⟨1, "SQL", ["Coursera/YouTube Course on SQL"]⟩ : LearningPlanItem).resources
        = ["Coursera/YouTube Course on " ++ "SQL"] :=
  (plan_structure [⟨"R", 0, [], ["SQL"]⟩]).2
    ⟨1, "SQL", ["Coursera/YouTube Course on SQL"]⟩ (by decide)

/-- Claim C8: serializing any plan produced by the planner to the
records-oriented JSON shape and parsing it back (with a parser that
accepts exactly the fields Week, Skill, Resources, the last a
one-element list of strings) round-trips to the same plan. -/
theorem plan_json_roundtrip (scores : List RoleScore) :
    jsonToPlan (planToJson (plan scores)) = some (plan scores) := by
  have h := mapM_jsonToItem (p := plan scores)
    (fun it hit => ⟨_, (plan_item_shape hit).2⟩)
  simpa [jsonToPlan, planToJson] using h

/-- Claim C9: `parse_pdf` never raises: when every page parses, the
result is every page text concatenated each followed by a newline, with
no warning; when a page raises after some pages succeeded, the result is
the text accumulated so far plus a surfaced warning; when the reader
itself fails the result is the empty text plus a warning. -/
theorem parse_pdf_error_handling :
    (∀ texts : List String, parse_pdf (.ok (texts.map PageResult.ok))
        = (texts.foldl (fun acc t => acc ++ t ++ "\n") "", none))
    ∧ (∀ (pre : List String) (e : String) (post : List PageResult),
        parse_pdf (.ok (pre.map PageResult.ok ++ PageResult.err e :: post))
          = (pre.foldl (fun acc t => acc ++ t ++ "\n") "",
             some ("PDF parsing error: " ++ e)))
    ∧ (∀ e : String, parse_pdf (.error e) = ("", some ("PDF parsing error: " ++ e))) :=
  ⟨fun texts => parsePages_ok texts "",
   fun pre e post => parsePages_err pre e post "",
   fun _ => rfl⟩

/-- Claim C10: every key of the manual skill mapping is a stripped
fragment of the comma-separated entry, nonempty after stripping, with
confidence exactly 1.0; and on the entry `a, ,b,` the keys are exactly
`a` and `b` (empty and whitespace-only fragments are dropped). -/
theorem manual_skills_parsing (manual : String) :
    (∀ p ∈ user_skills_conf manual,
        p.2 = 1 ∧ p.1 ≠ "" ∧ p.1 ∈ (pySplitComma manual).map pyStrip)
    ∧ (user_skills_conf "a, ,b,").map Prod.fst = ["a", "b"] := by
  constructor
  · intro p hp
    unfold user_skills_conf at hp
    obtain ⟨s, hs, rfl⟩ := List.mem_map.mp hp
    have hsf := List.mem_filter.mp (mem_firstDedup.mp hs)
    exact ⟨rfl, by simpa using hsf.2, hsf.1⟩
  · decide

/-- Witness for C10 at the entry `a, ,b,` and its first key. -/
theorem manual_skills_parsing_witness :
    ((1 : ℚ) = 1 ∧ "a" ≠ "" ∧ "a" ∈ (pySplitComma "a, ,b,").map pyStrip) :=
  (manual_skills_parsing "a, ,b,").1 ("a", 1) (by decide)

end CareerAdvisor
